import Mathlib

/-!
# OpenTracker — verification of spec claims against a shallow embedding

This file embeds the algorithmic core of the OpenTracker daily-report
pipeline (category-rule matching, browsing-history extraction, best-effort
remote reclassification, report aggregation, store replacement and the
daily scheduler delay computation) as executable Lean definitions, and
proves or refutes the specification claims about them.

Modelling conventions:
* Rust `i64` values are modelled as `Int` (no arithmetic here approaches
  the 64-bit boundary), `u64`/`usize` as `Nat`.
* `HashMap` contents are modelled as association lists; where the code
  iterates a `HashMap` in unspecified order, the association-list order
  stands for that iteration order, and determinism claims quantify over
  permutations of the list.
* Rust string operations are re-implemented over `List Char`
  (`String.data`) with structural or fuel-bounded recursion so that every
  definition evaluates inside the Lean kernel; Unicode-only differences
  (e.g. `to_lowercase` on non-ASCII letters) are irrelevant to the claims,
  which concern ASCII domain names, category labels and cron fields.
* External libraries (SQLite, serde_json, reqwest, Url) are modelled as
  abstract parameters (decoders, row lists, HTTP outcomes); the repo's own
  control flow around them is embedded faithfully.
-/

namespace OpenTracker

/-- Decidable equality for `Except`, used to evaluate witnesses. -/
instance {ε α : Type} [DecidableEq ε] [DecidableEq α] : DecidableEq (Except ε α)
  | .ok a, .ok b => decidable_of_iff (a = b) (by simp)
  | .ok _, .error _ => .isFalse (by intro h; cases h)
  | .error _, .ok _ => .isFalse (by intro h; cases h)
  | .error e, .error f => decidable_of_iff (e = f) (by simp)

/-! ## String primitives (models of the Rust `str` operations used) -/

/-- Rust `str::to_lowercase`, ASCII fragment (`Char.toLower` lowers only
ASCII letters; all strings the claims touch are ASCII). -/
def toLowerStr (s : String) : String :=
  String.mk (s.data.map Char.toLower)

/-- Rust `str::trim`: drop whitespace from both ends. -/
def trimStr (s : String) : String :=
  String.mk (((s.data.dropWhile Char.isWhitespace).reverse.dropWhile
    Char.isWhitespace).reverse)

/-- Rust `str::ends_with`. -/
def endsWithStr (s suffix : String) : Bool :=
  List.isSuffixOf suffix.data s.data

/-- Rust `str::starts_with`. -/
def startsWithStr (s pre : String) : Bool :=
  List.isPrefixOf pre.data s.data

/-- Rust `str::is_empty`. -/
def isEmptyStr (s : String) : Bool :=
  s.data.isEmpty

/-- Rust `str::contains` (substring containment), on char lists: the
needle is a prefix of some tail of the haystack. -/
def containsList (needle : List Char) : List Char → Bool
  | [] => needle.isEmpty
  | c :: t => List.isPrefixOf needle (c :: t) || containsList needle t

/-- Rust `str::contains`. -/
def containsStr (s sub : String) : Bool :=
  containsList sub.data s.data

/-- Lexicographic `≤` on char lists by code point, the order underlying
Rust `str::cmp` (byte-wise, which agrees with code-point order on the
ASCII names compared here). -/
def charListLe : List Char → List Char → Bool
  | [], _ => true
  | _ :: _, [] => false
  | x :: xs, y :: ys =>
    if x.toNat < y.toNat then true
    else if y.toNat < x.toNat then false
    else charListLe xs ys

/-- Rust `String` comparison `left.name.cmp(&right.name)` as a `≤`. -/
def nameLe (a b : String) : Bool :=
  charListLe a.data b.data

theorem charListLe_total : ∀ a b : List Char, charListLe a b = true ∨ charListLe b a = true
  | [], _ => Or.inl rfl
  | _ :: _, [] => Or.inr rfl
  | x :: xs, y :: ys => by
    rcases Nat.lt_trichotomy x.toNat y.toNat with h | h | h
    · exact Or.inl (by simp [charListLe, h])
    · rcases charListLe_total xs ys with ih | ih
      · exact Or.inl (by simp [charListLe, h, ih])
      · exact Or.inr (by simp [charListLe, h.symm, ih])
    · exact Or.inr (by simp [charListLe, h])

theorem charListLe_trans : ∀ a b c : List Char,
    charListLe a b = true → charListLe b c = true → charListLe a c = true
  | [], _, _, _, _ => rfl
  | x :: xs, [], _, hab, _ => by simp [charListLe] at hab
  | _ :: _, _ :: _, [], _, hbc => by simp [charListLe] at hbc
  | x :: xs, y :: ys, z :: zs, hab, hbc => by
    simp only [charListLe] at hab hbc ⊢
    rcases Nat.lt_trichotomy x.toNat y.toNat with hxy | hxy | hxy
    · rcases Nat.lt_trichotomy y.toNat z.toNat with hyz | hyz | hyz
      · simp [Nat.lt_trans hxy hyz]
      · simp [hyz ▸ hxy]
      · simp [charListLe, hyz, Nat.lt_asymm hyz] at hbc
    · rcases Nat.lt_trichotomy y.toNat z.toNat with hyz | hyz | hyz
      · simp [hxy ▸ hyz]
      · have hxz : x.toNat = z.toNat := hxy.trans hyz
        simp [hxy, Nat.lt_irrefl, hxz, hyz] at hab hbc ⊢
        exact charListLe_trans xs ys zs hab hbc
      · simp [charListLe, hyz, Nat.lt_asymm hyz] at hbc
    · simp [charListLe, hxy, Nat.lt_asymm hxy] at hab

/-! ## Category rule engine (`src/analyzer/categorizer.rs`) -/

/-- Model of `CategoryRules::normalize_category`: lowercase-trimmed synonym table
collapsing anything unrecognized to `"other"`. -/
def normalize_category (raw : String) : String :=
  let s := toLowerStr (trimStr raw)
  if s = "development" ∨ s = "dev" ∨ s = "개발" then "development"
  else if s = "communication" ∨ s = "커뮤니케이션" then "communication"
  else if s = "research" ∨ s = "리서치" then "research"
  else if s = "entertainment" ∨ s = "엔터테인먼트" then "entertainment"
  else if s = "sns" then "sns"
  else if s = "shopping" ∨ s = "쇼핑" then "shopping"
  else if s = "other" ∨ s = "기타" then "other"
  else "other"

/-- Fuel-indexed helper for Rust's `trim_start_matches("www.")`, which
strips the prefix repeatedly.  The fuel (instantiated with the string
length) strictly bounds the number of 4-character strips. -/
def stripWwwAux : Nat → List Char → List Char
  | 0, l => l
  | n + 1, l => if List.isPrefixOf "www.".data l then stripWwwAux n (l.drop 4) else l

/-- Rust `str::trim_start_matches("www.")`: remove every leading
occurrence of `"www."`. -/
def trimStartMatchesWww (s : String) : String :=
  String.mk (stripWwwAux s.data.length s.data)

/-- Model of `domain_matches` (categorizer.rs): normalize the rule
(`trim`, strip leading `www.`, lowercase) and test equality or a
proper-subdomain suffix `"." ++ rule`. -/
def domain_matches (domain rule : String) : Bool :=
  let normalized_rule := toLowerStr (trimStartMatchesWww (trimStr rule))
  domain == normalized_rule || endsWithStr domain ("." ++ normalized_rule)

/-- Model of `CategoryRules::categorize_domain`: the `domains` map is an
association list whose order models the `HashMap` iteration order; the
first rule that matches the trimmed-lowercased domain wins. -/
def categorize_domain (domains : List (String × String)) (domain : String) : String :=
  let normalized := toLowerStr (trimStr domain)
  match domains.find? (fun p => domain_matches normalized p.1) with
  | some p => normalize_category p.2
  | none => "other"

/-- Spec-side normal form of a domain rule, following the spec's words:
"the rule's normalized form" (trim, strip leading `www.`, lowercase). -/
def ruleNormalForm (rule : String) : String :=
  toLowerStr (trimStartMatchesWww (trimStr rule))

/-! ## Data rows (`src/db/mod.rs`)

The `id` columns are SQLite autoincrement values never read by the
aggregator or the pipeline logic the claims concern; they are omitted
from the row models. -/

/-- Model of `ChromeVisitInput` (db/mod.rs). -/
structure ChromeVisitInput where
  domain : String
  category : String
  duration_sec : Int
deriving DecidableEq, Repr

/-- Model of `ActivityRow` (db/mod.rs), without the unread `id` column. -/
structure ActivityRow where
  recorded_at : Int
  app_name : String
  window_title : Option String
  category : String
  duration_sec : Int
deriving DecidableEq, Repr

/-- A row of the `chrome_visits` table: the columns written by
`replace_chrome_visits_for_date` (`date, domain, category, duration_sec`),
without the unread autoincrement `id`. -/
structure StoredVisitRow where
  date : String
  domain : String
  category : String
  duration_sec : Int
deriving DecidableEq, Repr

/-- Model of `Database::replace_chrome_visits_for_date`: one transaction that
deletes every row of the date and then inserts the given visits.  The
store is the table content in rowid order; deletion preserves the order
of surviving rows and insertion appends. -/
def replace_chrome_visits_for_date (date : String) (visits : List ChromeVisitInput)
    (store : List StoredVisitRow) : List StoredVisitRow :=
  store.filter (fun r => !(r.date == date))
    ++ visits.map (fun v => ⟨date, v.domain, v.category, v.duration_sec⟩)

/-- Model of `Database::chrome_visits_for_date`: the rows of the date.  The SQL
`ORDER BY duration_sec DESC` presentation order is dropped: every use in
the claims compares row lists of equal stores, and the aggregator reads
only the multiset of rows. -/
def chrome_visits_for_date (date : String) (store : List StoredVisitRow) :
    List StoredVisitRow :=
  store.filter (fun r => r.date == date)

/-! ## Reclassification and insight step (`src/ai/mod.rs`)

The HTTP stack and `serde_json` are external: the network outcome is an
explicit `HttpOutcome` value and the two JSON decoders are abstract
function parameters.  The repo's own control flow around them —
feature-flag and key gating, status check, content extraction, fenced
JSON-block search, domain-map override, insight trimming — is embedded
faithfully. -/

/-- Model of `ChatMessage` (ai/mod.rs): deserialized `message` object. -/
structure ChatMessage where
  content : Option String
deriving DecidableEq, Repr

/-- Model of `ChatChoice` (ai/mod.rs). -/
structure ChatChoice where
  message : ChatMessage
deriving DecidableEq, Repr

/-- Model of `ChatCompletionResponse` (ai/mod.rs). -/
structure ChatCompletionResponse where
  choices : List ChatChoice
deriving DecidableEq, Repr

/-- Model of `DomainCategoryItem` (ai/mod.rs). -/
structure DomainCategoryItem where
  domain : String
  category : String
deriving DecidableEq, Repr

/-- Model of `AiClassificationPayload` (ai/mod.rs). -/
structure AiClassificationPayload where
  domain_categories : Option (List DomainCategoryItem)
  insights : Option (List String)
deriving DecidableEq, Repr

/-- Outcome of `reqwest` `send()` + `status()` + `text()`: either a
network error or a response with its `status.is_success()` flag and
body text. -/
inductive HttpOutcome where
  | netError (msg : String)
  | response (success : Bool) (body : String)
deriving DecidableEq, Repr

/-- Model of `resolve_api_key` (ai/mod.rs): environment variable first, then the
config key, each only when its trimmed value is non-empty. -/
def resolve_api_key (envKey configKey : Option String) : Option String :=
  match envKey.filter (fun v => !(isEmptyStr (trimStr v))) with
  | some k => some k
  | none => configKey.filter (fun v => !(isEmptyStr (trimStr v)))

/-- Model of `chat_completion_blocking` (ai/mod.rs): reject an empty key, fail on
any network error, fail on a non-success status, fail when the body does
not decode as a `ChatCompletionResponse`, and fail when the first
choice's trimmed `message.content` is missing or empty.  (The
`chat_completion` wrapper only moves this call to a worker thread and
re-raises its result, so it is not modelled separately.) -/
def chat_completion_blocking (apiKey : String)
    (decodeChat : String → Option ChatCompletionResponse)
    (http : HttpOutcome) : Except String String :=
  if isEmptyStr (trimStr apiKey) then .error "AI API key is empty"
  else
    match http with
    | .netError m => .error ("AI API request failed: " ++ m)
    | .response success body =>
      if !success then .error ("AI API error: " ++ body)
      else
        match decodeChat body with
        | none => .error ("Failed to parse AI response: " ++ body)
        | some parsed =>
          match (parsed.choices.head?.bind (fun c => c.message.content)).map trimStr with
          | some content =>
            if isEmptyStr content then
              .error "AI response did not include message.content"
            else .ok content
          | none => .error "AI response did not include message.content"

/-- Rust `str::strip_prefix`. -/
def stripPrefixStr (pre s : String) : Option String :=
  if List.isPrefixOf pre.data s.data then some (String.mk (s.data.drop pre.data.length))
  else none

/-- Fuel-indexed splitter for Rust `str::split(sep)` with a non-empty
separator; the fuel (instantiated with `length + 1`) bounds the number of
pieces plus consumed characters. -/
def splitSepAux (sep : List Char) : Nat → List Char → List Char → List (List Char)
  | 0, l, acc => [acc.reverse ++ l]
  | fuel + 1, l, acc =>
    match l with
    | [] => [acc.reverse]
    | c :: t =>
      if List.isPrefixOf sep l then
        acc.reverse :: splitSepAux sep fuel (l.drop sep.length) []
      else
        splitSepAux sep fuel t (c :: acc)

/-- Rust `str::split(sep)` (keeps empty pieces, as Rust does). -/
def splitOnStr (sep s : String) : List String :=
  (splitSepAux sep.data (s.data.length + 1) s.data []).map String.mk

/-- Model of `extract_json_block` (ai/mod.rs): among the ```-fenced blocks prefer
one tagged `json` (tag stripped, trimmed) or one that begins with `{`;
otherwise fall back to the substring between the first `{` and the last
`}`, and failing that the trimmed content. -/
def extract_json_block (content : String) : String :=
  let fenced := ((splitOnStr "```" content).map trimStr).findSome? (fun block =>
    match stripPrefixStr "json" block with
    | some rest => some (trimStr rest)
    | none => if startsWithStr block "\x7b" then some block else none)
  match fenced with
  | some block => block
  | none =>
    match content.data.findIdx? (fun c => c == '\x7b'),
        (content.data.reverse.findIdx? (fun c => c == '\x7d')).map
          (fun i => content.data.length - 1 - i) with
    | some first, some last =>
      if first < last then String.mk ((content.data.drop first).take (last - first + 1))
      else trimStr content
    | _, _ => trimStr content

/-- Model of `parse_ai_payload` (ai/mod.rs), with the `serde_json` decode of the
extracted block abstract. -/
def parse_ai_payload (decodePayload : String → Option AiClassificationPayload)
    (content : String) : Except String AiClassificationPayload :=
  match decodePayload (extract_json_block content) with
  | some p => .ok p
  | none => .error ("Failed to parse AI JSON payload. content: " ++ content)

/-- The `HashMap` built from `parsed.domain_categories`: keys are
trimmed-lowercased domains, values normalized categories. -/
def buildDomainMap (items : List DomainCategoryItem) : List (String × String) :=
  items.map (fun item => (toLowerStr (trimStr item.domain), normalize_category item.category))

/-- Model of `HashMap::get` on a map collected from an iterator: the last
insertion for a key wins. -/
def lookupLast (k : String) (l : List (String × String)) : Option String :=
  l.reverse.lookup k

/-- The per-visit override applied by `enrich_chrome_visits`: take the
mapped category when the trimmed-lowercased domain is in the map, else
keep the visit unchanged (domain and duration are copied verbatim). -/
def recategorize_visit (dmap : List (String × String)) (v : ChromeVisitInput) :
    ChromeVisitInput :=
  match lookupLast (toLowerStr (trimStr v.domain)) dmap with
  | some c => { v with category := c }
  | none => v

/-- Model of `AiEnrichment` (ai/mod.rs). -/
structure AiEnrichment where
  visits : List ChromeVisitInput
  insights : List String
deriving DecidableEq, Repr

/-- Model of `enrich_chrome_visits` (ai/mod.rs): pass-through when the feature is
off, the input is empty or no key resolves; otherwise call the remote
endpoint, parse its payload and override matching visits' categories,
trimming, dropping empty and capping insights at 8. -/
def enrich_chrome_visits (ai_enabled : Bool) (envKey configKey : Option String)
    (decodeChat : String → Option ChatCompletionResponse)
    (decodePayload : String → Option AiClassificationPayload)
    (http : HttpOutcome) (visits : List ChromeVisitInput) :
    Except String AiEnrichment :=
  if !ai_enabled || visits.isEmpty then .ok ⟨visits, []⟩
  else
    match resolve_api_key envKey configKey with
    | none => .ok ⟨visits, []⟩
    | some key =>
      match chat_completion_blocking key decodeChat http with
      | .error e => .error e
      | .ok content =>
        match parse_ai_payload decodePayload content with
        | .error e => .error e
        | .ok parsed =>
          let dmap := buildDomainMap (parsed.domain_categories.getD [])
          let recategorized := visits.map (recategorize_visit dmap)
          let insights :=
            (((parsed.insights.getD []).map trimStr).filter (fun e => !(isEmptyStr e))).take 8
          .ok ⟨recategorized, insights⟩

/-- The enrichment-selection step of `run_daily_pipeline` (main.rs):
`unwrap_or_else` replaces any enrichment error by the original visits
with zero insights, logging a warning; execution continues either way. -/
def pipeline_enrichment (ruleVisits : List ChromeVisitInput)
    (enrichResult : Except String AiEnrichment) : AiEnrichment :=
  match enrichResult with
  | .ok e => e
  | .error _ => ⟨ruleVisits, []⟩

/-- The storage effect of `run_daily_pipeline` (main.rs): select the
enrichment (with fallback), replace the date's stored rows with its
visits, and hand its insights to report generation.  Returns the new
store and the insights used by the report. -/
def run_daily_pipeline_store (date : String) (ruleVisits : List ChromeVisitInput)
    (enrichResult : Except String AiEnrichment) (store : List StoredVisitRow) :
    List StoredVisitRow × List String :=
  let enrichment := pipeline_enrichment ruleVisits enrichResult
  (replace_chrome_visits_for_date date enrichment.visits store, enrichment.insights)

/-! ## History extractor (`src/collector/chrome.rs`)

The filesystem and SQLite are external; what is embedded is the control
flow of `collect_profile_visits` (which effects run on which exit path)
and the pure row post-processing of `read_history_visits`. -/

/-- Result of one `collect_profile_visits` call: the returned value and
whether the temporary copy directory created for the call still exists
when the call returns. -/
structure CollectOutcome where
  result : Except String (List (String × Int))
  temp_dir_exists : Bool
deriving Repr

/-- Model of `collect_profile_visits` (chrome.rs) control flow.  `mkdirOk` models
`fs::create_dir_all` (on failure no directory is created), `copyOk`
models `fs::copy`, and `queryResult` the outcome of
`read_history_visits` on the copy.  `fs::remove_dir_all` runs only after
the query, on the line following it; the early `?` return on a copy
failure skips it. -/
def collect_profile_visits (mkdirOk copyOk : Bool)
    (queryResult : Except String (List (String × Int))) : CollectOutcome :=
  if !mkdirOk then
    { result := .error "Failed to create Chrome temp directory", temp_dir_exists := false }
  else if !copyOk then
    { result := .error "Failed to copy Chrome History DB", temp_dir_exists := true }
  else
    { result := queryResult, temp_dir_exists := false }

/-- Model of `extract_domain` (chrome.rs): `Url::parse(...).host_str()` is the
abstract `hostOf`; the host is then stripped of a leading `www.` and
lowercased. -/
def extract_domain (hostOf : String → Option String) (raw_url : String) : Option String :=
  (hostOf raw_url).map (fun host => toLowerStr (trimStartMatchesWww host))

/-- The row post-processing of `read_history_visits` (chrome.rs): for
each `(url, visit_duration)` row of the date, keep the parsed domain
with `(duration / 1_000_000).max(0)` (Rust `i64` division truncates
toward zero, as does `Int.tdiv`), then drop entries whose seconds are
not strictly positive. -/
def read_history_visits (hostOf : String → Option String)
    (rows : List (String × Int)) : List (String × Int) :=
  (rows.filterMap (fun r =>
      (extract_domain hostOf r.1).map
        (fun dom => (dom, max (Int.tdiv r.2 1000000) 0))))
    |>.filter (fun p => decide ((0 : Int) < p.2))

/-- Modelled from the spec (§4.2 contract) as the comparison point for
the extractor claim: discard (rather than clamp and keep) any row whose
truncated duration is not positive, and keep the truncated value
unclamped for the rest. -/
def read_history_visits_spec (hostOf : String → Option String)
    (rows : List (String × Int)) : List (String × Int) :=
  rows.filterMap (fun r =>
    match extract_domain hostOf r.1 with
    | some dom =>
      if (0 : Int) < Int.tdiv r.2 1000000 then some (dom, Int.tdiv r.2 1000000)
      else none
    | none => none)

/-! ## Daily scheduler (`src/scheduler/mod.rs`)

The local clock is modelled linearly at whole-second granularity: the
current instant is its seconds-of-day value (`now_sec < 86400`), and
`Local.from_local_datetime` is single-valued (no DST transition at the
target time). -/

/-- Rust `str::split_whitespace` (runs of whitespace, empty pieces
dropped); accumulator-based, structural on the character list. -/
def splitWsAux : List Char → List Char → List (List Char)
  | [], acc => if acc.isEmpty then [] else [acc.reverse]
  | c :: t, acc =>
    if c.isWhitespace then
      if acc.isEmpty then splitWsAux t [] else acc.reverse :: splitWsAux t []
    else splitWsAux t (c :: acc)

/-- Rust `str::split_whitespace`. -/
def splitWhitespace (s : String) : List String :=
  (splitWsAux s.data []).map String.mk

/-- Rust `u32::from_str`: optional leading `+`, at least one digit, all
digits, value below `2^32`. -/
def parseU32 (s : String) : Option Nat :=
  let l := match s.data with
    | '+' :: t => t
    | l => l
  if !l.isEmpty && l.all Char.isDigit then
    let v := l.foldl (fun a c => a * 10 + (c.toNat - 48)) 0
    if v < 4294967296 then some v else none
  else none

/-- Model of `parse_daily_cron_time` (scheduler/mod.rs): exactly five
whitespace-separated fields, the last three literal `*`, minute and hour
numeric; `NaiveTime::from_hms_opt hour minute 0` requires `hour < 24`
and `minute < 60`.  Returns `(hour, minute)`. -/
def parse_daily_cron_time (cron : String) : Except String (Nat × Nat) :=
  match splitWhitespace cron with
  | [f0, f1, f2, f3, f4] =>
    if f2 ≠ "*" ∨ f3 ≠ "*" ∨ f4 ≠ "*" then
      .error ("Unsupported cron expression: " ++ cron)
    else
      match parseU32 f0, parseU32 f1 with
      | some minute, some hour =>
        if hour < 24 ∧ minute < 60 then .ok (hour, minute)
        else .error "Invalid cron time values"
      | none, _ => .error ("Invalid cron minute: " ++ f0)
      | some _, none => .error ("Invalid cron hour: " ++ f1)
  | _ => .error ("Invalid cron expression: " ++ cron)

/-- Model of `seconds_until_next_run` (scheduler/mod.rs) on the linear local
clock: target today's `hour:minute:00` when it is still strictly in the
future, else tomorrow's. -/
def seconds_until_next_run (cron : String) (now_sec : Nat) : Except String Nat :=
  match parse_daily_cron_time cron with
  | .error e => .error e
  | .ok hm =>
    let target := hm.1 * 3600 + hm.2 * 60
    if now_sec < target then .ok (target - now_sec)
    else .ok (target + 86400 - now_sec)

/-! ## Aggregator / report builder (`src/analyzer/report.rs`)

`HashMap` aggregation is modelled as an association list over the keys
in first-occurrence order (any fixed order is equivalent: every consumer
either sorts or sums the entries).  `BTreeMap` values are modelled as
association lists in the construction order over the canonical-category
list; only their key set and values are consumed by the claims. -/

/-- Model of `canonical_categories` (report.rs). -/
def canonical_categories : List String :=
  ["development", "research", "communication", "entertainment", "sns", "shopping", "other"]

/-- Model of `sec_to_min` (report.rs): clamp below at zero, cast, divide by 60. -/
def sec_to_min (seconds : Int) : Nat :=
  (max seconds 0).toNat / 60

/-- Model of `ReportMetric` (report.rs). -/
structure ReportMetric where
  name : String
  seconds : Nat
  minutes : Nat
deriving DecidableEq, Repr

/-- The metric built by `top_n_metrics` from one map entry: seconds
clamped at zero and cast, minutes via `sec_to_min`. -/
def toMetric (p : String × Int) : ReportMetric :=
  { name := p.1, seconds := (max p.2 0).toNat, minutes := sec_to_min p.2 }

/-- The order produced by the `top_n_metrics` comparator
`right.seconds.cmp(&left.seconds).then_with(|| left.name.cmp(&right.name))`:
`a` precedes `b` when `a` has more seconds, or equal seconds and a
lexicographically smaller-or-equal name. -/
def metricBefore (a b : ReportMetric) : Prop :=
  b.seconds < a.seconds ∨ (a.seconds = b.seconds ∧ nameLe a.name b.name = true)

instance : DecidableRel metricBefore := fun _a _b =>
  inferInstanceAs (Decidable (_ ∨ _))

instance : IsTotal ReportMetric metricBefore where
  total a b := by
    rcases Nat.lt_trichotomy a.seconds b.seconds with h | h | h
    · exact Or.inr (Or.inl h)
    · rcases charListLe_total a.name.data b.name.data with hn | hn
      · exact Or.inl (Or.inr ⟨h, hn⟩)
      · exact Or.inr (Or.inr ⟨h.symm, hn⟩)
    · exact Or.inl (Or.inl h)

instance : IsTrans ReportMetric metricBefore where
  trans a b c hab hbc := by
    rcases hab with hab | ⟨hab, han⟩
    · rcases hbc with hbc | ⟨hbc, _⟩
      · exact Or.inl (hbc.trans hab)
      · exact Or.inl (hbc ▸ hab)
    · rcases hbc with hbc | ⟨hbc, hbn⟩
      · exact Or.inl (hab.symm ▸ hbc)
      · exact Or.inr ⟨hab.trans hbc, charListLe_trans _ _ _ han hbn⟩

/-- Model of `top_n_metrics` (report.rs): build metrics from the map entries,
sort with the descending-seconds/ascending-name comparator, take `n`.
Rust's stable `sort_by` is modelled by insertion sort; sharing the key
uniqueness of the source `HashMap`, the comparator is antisymmetric, so
the sorted list is unique and stability is immaterial. -/
def top_n_metrics (source : List (String × Int)) (n : Nat) : List ReportMetric :=
  (List.insertionSort metricBefore (source.map toMetric)).take n

/-- Keys of an aggregation in first-occurrence order. -/
def dedupKeysAux : List String → List String → List String
  | [], acc => acc.reverse
  | k :: t, acc => if acc.contains k then dedupKeysAux t acc else dedupKeysAux t (k :: acc)

/-- Keys of an aggregation in first-occurrence order. -/
def dedupKeys (l : List String) : List String :=
  dedupKeysAux l []

/-- The per-key total of a `HashMap` fold that adds
`duration.max(0)` for each row of the key; 0 when no row has the key
(mirroring `.get(k).copied().unwrap_or_default()`). -/
def sum_pos_by {α : Type} (keyOf : α → String) (valOf : α → Int)
    (rows : List α) (k : String) : Int :=
  (rows.filter (fun r => keyOf r == k)).foldl (fun a r => a + max (valOf r) 0) 0

/-- The `app_seconds` aggregation of `build_daily_report`. -/
def app_seconds (activities : List ActivityRow) : List (String × Int) :=
  (dedupKeys (activities.map (·.app_name))).map
    (fun k => (k, sum_pos_by (·.app_name) (·.duration_sec) activities k))

/-- The `domain_seconds` aggregation of `build_daily_report`
(`raw_domain_seconds` summed with per-row clamping, then re-mapped
through a second, redundant `.max(0)`). -/
def domain_seconds (domains : List StoredVisitRow) : List (String × Int) :=
  (dedupKeys (domains.map (·.domain))).map
    (fun k => (k, max (sum_pos_by (·.domain) (·.duration_sec) domains k) 0))

/-- Model of `format_duration_seconds` (report.rs). -/
def format_duration_seconds (seconds : Nat) : String :=
  let hours := seconds / 3600
  let minutes := (seconds % 3600) / 60
  let remain := seconds % 60
  if hours > 0 then
    if remain == 0 then toString hours ++ "h " ++ toString minutes ++ "m"
    else toString hours ++ "h " ++ toString minutes ++ "m " ++ toString remain ++ "s"
  else if minutes > 0 then
    if remain == 0 then toString minutes ++ "m"
    else toString minutes ++ "m " ++ toString remain ++ "s"
  else toString remain ++ "s"

/-- Model of `detect_anomalies` (report.rs): the four independent checks in their
fixed order. -/
def detect_anomalies (categories_seconds : List (String × Nat))
    (top_domains : List ReportMetric) (active_window_seconds : Nat)
    (chrome_history_seconds : Nat) : List String :=
  let entertainment := (categories_seconds.lookup "entertainment").getD 0
  let entertainment_alert :=
    if 90 * 60 ≤ entertainment then
      some ("Entertainment usage is high: " ++ format_duration_seconds entertainment)
    else none
  let youtube_alert :=
    (top_domains.find? (fun m => containsStr m.name "youtube.com" && decide (60 * 60 ≤ m.seconds))).map
      (fun m => "YouTube session was unusually long: " ++ format_duration_seconds m.seconds)
  let low_activity_alert :=
    if active_window_seconds < 60 * 60 then
      some "Total tracked time is below 1 hour"
    else none
  let overlap_hint :=
    if active_window_seconds < chrome_history_seconds ∧ 0 < chrome_history_seconds then
      some "Chrome history durations can overlap across tabs, so web time may exceed active window time"
    else none
  [entertainment_alert, youtube_alert, low_activity_alert, overlap_hint].filterMap id

/-- Model of `DailyReport` (report.rs); the four `BTreeMap` category maps are
association lists over the canonical keys. -/
structure DailyReport where
  date : String
  generated_at : String
  total_seconds : Nat
  total_minutes : Nat
  active_window_seconds : Nat
  active_window_minutes : Nat
  chrome_history_seconds : Nat
  chrome_history_minutes : Nat
  categories_seconds : List (String × Nat)
  categories : List (String × Nat)
  chrome_categories_seconds : List (String × Nat)
  chrome_categories : List (String × Nat)
  top_apps : List ReportMetric
  top_domains : List ReportMetric
  anomalies : List String
deriving DecidableEq, Repr

/-- Model of `build_daily_report` (report.rs); `Utc::now().to_rfc3339()` is the
explicit `generated_at` argument, the date is pre-formatted. -/
def build_daily_report (date generated_at : String)
    (activities : List ActivityRow) (domains : List StoredVisitRow) : DailyReport :=
  let activity_total_seconds :=
    activities.foldl (fun a r => a + max r.duration_sec 0) 0
  let domain_total_seconds :=
    (domain_seconds domains).foldl (fun a p => a + p.2) 0
  let activity_category_seconds :=
    sum_pos_by (·.category) (·.duration_sec) activities
  let domain_category_seconds :=
    sum_pos_by (·.category) (·.duration_sec) domains
  let categories :=
    canonical_categories.map (fun c => (c, sec_to_min (activity_category_seconds c)))
  let chrome_categories :=
    canonical_categories.map (fun c => (c, sec_to_min (domain_category_seconds c)))
  let categories_seconds :=
    canonical_categories.map (fun c => (c, (max (activity_category_seconds c) 0).toNat))
  let chrome_categories_seconds :=
    canonical_categories.map (fun c => (c, (max (domain_category_seconds c) 0).toNat))
  let top_apps := top_n_metrics (app_seconds activities) 5
  let top_domains := top_n_metrics (domain_seconds domains) 10
  let anomalies := detect_anomalies categories_seconds top_domains
    (max activity_total_seconds 0).toNat (max domain_total_seconds 0).toNat
  { date := date
    generated_at := generated_at
    total_seconds := (max activity_total_seconds 0).toNat
    total_minutes := sec_to_min activity_total_seconds
    active_window_seconds := (max activity_total_seconds 0).toNat
    active_window_minutes := sec_to_min activity_total_seconds
    chrome_history_seconds := (max domain_total_seconds 0).toNat
    chrome_history_minutes := sec_to_min domain_total_seconds
    categories_seconds := categories_seconds
    categories := categories
    chrome_categories_seconds := chrome_categories_seconds
    chrome_categories := chrome_categories
    top_apps := top_apps
    top_domains := top_domains
    anomalies := anomalies }

/-! ## Report generation wrapper (`src/analyzer/mod.rs`) -/

/-- The anomaly/insight merge of `generate_and_store_report`: append the
AI insights (each prefixed `"AI insight: "`) to the detector anomalies
and keep the first occurrence of every string (the `HashSet` `seen`
filter). -/
def report_anomalies_with_insights (base ai_insights : List String) : List String :=
  dedupKeys (base ++ ai_insights.map (fun e => "AI insight: " ++ e))

/-- The pure content of `generate_and_store_report` (analyzer/mod.rs):
build the daily report from the date's stored rows and merge the AI
insights into its anomaly list. -/
def generate_report (date generated_at : String) (activities : List ActivityRow)
    (domains : List StoredVisitRow) (ai_insights : List String) : DailyReport :=
  let report := build_daily_report date generated_at activities domains
  { report with anomalies := report_anomalies_with_insights report.anomalies ai_insights }

/-! ## Shared lemmas -/

theorem parse_daily_cron_time_bounds {cron : String} {hour minute : Nat}
    (heq : parse_daily_cron_time cron = .ok (hour, minute)) :
    hour < 24 ∧ minute < 60 := by
  unfold parse_daily_cron_time at heq
  split at heq
  · split at heq
    · cases heq
    · split at heq
      · split at heq
        · rename_i hc
          simp only [Except.ok.injEq, Prod.mk.injEq] at heq
          obtain ⟨h1, h2⟩ := heq
          exact ⟨h1 ▸ hc.1, h2 ▸ hc.2⟩
        · cases heq
      · cases heq
      · cases heq
  · cases heq

theorem replace_chrome_visits_idem (date : String) (visits : List ChromeVisitInput)
    (store : List StoredVisitRow) :
    replace_chrome_visits_for_date date visits
      (replace_chrome_visits_for_date date visits store) =
    replace_chrome_visits_for_date date visits store := by
  unfold replace_chrome_visits_for_date
  simp [List.filter_append, List.filter_filter, List.filter_map, Function.comp_def]

theorem chrome_visits_replace (date : String) (visits : List ChromeVisitInput)
    (store : List StoredVisitRow) :
    chrome_visits_for_date date (replace_chrome_visits_for_date date visits store) =
    visits.map (fun v => ⟨date, v.domain, v.category, v.duration_sec⟩) := by
  unfold chrome_visits_for_date replace_chrome_visits_for_date
  simp [List.filter_append, List.filter_filter, List.filter_map, Function.comp_def]

/-! ## Claim C2 — temporary-copy cleanup in `collect_profile_visits` -/

/-- C2 counterexample: when the temporary directory is created but the
history copy fails, `collect_profile_visits` returns early through `?`
without reaching `fs::remove_dir_all`, so the temporary copy location
still exists when the call returns — refuting removal on every exit
path. -/
theorem c2_cleanup_counterexample :
    (collect_profile_visits true false (.ok [])).temp_dir_exists = true := rfl

/-- C2 (amended): the temporary copy location is gone on return on every
exit path except a copy failure — when the directory creation failed
(nothing was created) or the copy succeeded (whatever the query
outcome), no temporary directory remains. -/
theorem c2_cleanup_amended (mkdirOk copyOk : Bool)
    (queryResult : Except String (List (String × Int)))
    (h : mkdirOk = false ∨ copyOk = true) :
    (collect_profile_visits mkdirOk copyOk queryResult).temp_dir_exists = false := by
  rcases h with h | h
  · subst h; rfl
  · subst h; cases mkdirOk <;> rfl

/-- C2 witness: successful copy and query leave no temporary
directory. -/
theorem c2_cleanup_amended_witness :
    (false = false ∨ true = true) ∧
    (collect_profile_visits true true (.ok [("a.com", 3)])).temp_dir_exists = false :=
  ⟨Or.inr rfl, c2_cleanup_amended true true (.ok [("a.com", 3)]) (Or.inr rfl)⟩

/-! ## Claim C4 — domain rule matching is equality or proper-subdomain -/

/-- C4: a rule matches a (normalized) domain exactly when the domain
equals the rule's normalized form or ends with `"." ++ ruleForm`; in
particular `"github.com"` matches `"docs.github.com"` and itself, while
`"hub.com"` does not match `"github.com"` (no bare substring match). -/
theorem c4_domain_matches :
    (∀ d r : String, domain_matches d r = true ↔
      (d = ruleNormalForm r ∨ endsWithStr d ("." ++ ruleNormalForm r) = true)) ∧
    domain_matches "docs.github.com" "github.com" = true ∧
    domain_matches "github.com" "github.com" = true ∧
    domain_matches "github.com" "hub.com" = false := by
  refine ⟨?_, by decide, by decide, by decide⟩
  intro d r
  unfold domain_matches ruleNormalForm
  simp [Bool.or_eq_true, beq_iff_eq]

theorem recategorize_visit_domain (dmap : List (String × String))
    (v : ChromeVisitInput) : (recategorize_visit dmap v).domain = v.domain := by
  unfold recategorize_visit
  cases lookupLast (toLowerStr (trimStr v.domain)) dmap <;> rfl

theorem recategorize_visit_duration (dmap : List (String × String))
    (v : ChromeVisitInput) :
    (recategorize_visit dmap v).duration_sec = v.duration_sec := by
  unfold recategorize_visit
  cases lookupLast (toLowerStr (trimStr v.domain)) dmap <;> rfl

/-! ## Claim C5 — reclassification only rewrites categories -/

/-- C5: the reclassification mapping of `enrich_chrome_visits` keeps
length and order, copies each visit's domain and duration verbatim, and
leaves a visit entirely unchanged when its trimmed-lowercased domain is
absent from the remote domain→category map. -/
theorem c5_recategorize_frame (dmap : List (String × String))
    (visits : List ChromeVisitInput) :
    (visits.map (recategorize_visit dmap)).length = visits.length ∧
    (∀ i (hi : i < visits.length),
      ((visits.map (recategorize_visit dmap)).get ⟨i, by simpa using hi⟩).domain =
        (visits.get ⟨i, hi⟩).domain ∧
      ((visits.map (recategorize_visit dmap)).get ⟨i, by simpa using hi⟩).duration_sec =
        (visits.get ⟨i, hi⟩).duration_sec) ∧
    (∀ v : ChromeVisitInput,
      lookupLast (toLowerStr (trimStr v.domain)) dmap = none →
      recategorize_visit dmap v = v) := by
  refine ⟨by simp, ?_, ?_⟩
  · intro i hi
    simp only [List.get_eq_getElem, List.getElem_map]
    constructor
    · exact recategorize_visit_domain dmap _
    · exact recategorize_visit_duration dmap _
  · intro v hv
    simp [recategorize_visit, hv]

/-- C5 witness at a concrete visit and map. -/
theorem c5_recategorize_frame_witness :
    ((0 : Nat) < 1) ∧
    ((List.map (recategorize_visit [("x.com", "sns")])
        [⟨"github.com", "development", 10⟩]).get ⟨0, by decide⟩).domain = "github.com" ∧
    lookupLast (toLowerStr (trimStr "github.com")) [("x.com", "sns")] = none ∧
    recategorize_visit [("x.com", "sns")] ⟨"github.com", "development", 10⟩ =
      ⟨"github.com", "development", 10⟩ :=
  ⟨by decide,
   ((c5_recategorize_frame [("x.com", "sns")] [⟨"github.com", "development", 10⟩]).2.1
      0 (by decide)).1,
   by decide,
   (c5_recategorize_frame [("x.com", "sns")] [⟨"github.com", "development", 10⟩]).2.2
      ⟨"github.com", "development", 10⟩ (by decide)⟩

/-! ## Claim C7 — same-date rerun is idempotent -/

/-- C7: rerunning the pipeline storage step for the same date with
identical inputs leaves the store identical (the delete-then-insert
fully supersedes the first run, no appending), the date's stored rows
are exactly the enrichment's visits, and the report generated from the
second store equals the first. -/
theorem c7_rerun_idempotent (date generated_at : String)
    (activities : List ActivityRow) (ruleVisits : List ChromeVisitInput)
    (enrichResult : Except String AiEnrichment) (store : List StoredVisitRow) :
    (run_daily_pipeline_store date ruleVisits enrichResult
        (run_daily_pipeline_store date ruleVisits enrichResult store).1).1 =
      (run_daily_pipeline_store date ruleVisits enrichResult store).1 ∧
    (run_daily_pipeline_store date ruleVisits enrichResult
        (run_daily_pipeline_store date ruleVisits enrichResult store).1).2 =
      (run_daily_pipeline_store date ruleVisits enrichResult store).2 ∧
    chrome_visits_for_date date
        (run_daily_pipeline_store date ruleVisits enrichResult store).1 =
      (pipeline_enrichment ruleVisits enrichResult).visits.map
        (fun v => ⟨date, v.domain, v.category, v.duration_sec⟩) ∧
    generate_report date generated_at activities
        (chrome_visits_for_date date
          (run_daily_pipeline_store date ruleVisits enrichResult
            (run_daily_pipeline_store date ruleVisits enrichResult store).1).1)
        (run_daily_pipeline_store date ruleVisits enrichResult
          (run_daily_pipeline_store date ruleVisits enrichResult store).1).2 =
      generate_report date generated_at activities
        (chrome_visits_for_date date
          (run_daily_pipeline_store date ruleVisits enrichResult store).1)
        (run_daily_pipeline_store date ruleVisits enrichResult store).2 := by
  have hidem := replace_chrome_visits_idem date
    (pipeline_enrichment ruleVisits enrichResult).visits store
  refine ⟨hidem, rfl, chrome_visits_replace date _ store, ?_⟩
  rw [show (run_daily_pipeline_store date ruleVisits enrichResult
        (run_daily_pipeline_store date ruleVisits enrichResult store).1).1 =
      (run_daily_pipeline_store date ruleVisits enrichResult store).1 from hidem]
  rfl

/-! ## Claim C8 — microsecond truncation and discarded non-positives -/

/-- C8: the extractor's row post-processing equals the spec-side version
that truncates microseconds to whole seconds (toward zero) and discards
— rather than clamps and keeps — every entry whose truncated duration is
not positive; and every produced duration is strictly positive. -/
theorem c8_read_history_visits (hostOf : String → Option String)
    (rows : List (String × Int)) :
    read_history_visits hostOf rows = read_history_visits_spec hostOf rows ∧
    (read_history_visits hostOf rows).all (fun p => decide ((0 : Int) < p.2)) = true := by
  constructor
  · induction rows with
    | nil => rfl
    | cons r t ih =>
      simp only [read_history_visits, read_history_visits_spec, List.filterMap_cons] at ih ⊢
      cases hdom : extract_domain hostOf r.1 with
      | none => simpa [hdom] using ih
      | some dom =>
        by_cases hpos : (0 : Int) < Int.tdiv r.2 1000000
        · have hmax : max (Int.tdiv r.2 1000000) 0 = Int.tdiv r.2 1000000 :=
            max_eq_left hpos.le
          simp only [hdom, List.filter_cons, hmax]
          simp [hpos, ih]
        · have hmax : max (Int.tdiv r.2 1000000) 0 = 0 :=
            max_eq_right (not_lt.mp hpos)
          simp only [hdom, List.filter_cons, hmax]
          simp [hpos, ih]
  · rw [List.all_eq_true]
    intro p hp
    simp only [read_history_visits, List.mem_filter] at hp
    exact hp.2

/-! ## Claim C9 — delay until today's or tomorrow's trigger -/

/-- C9: for any parsed daily cron `(hour, minute)` and a current
seconds-of-day below 86400, the computed delay targets today's
`hour:minute` when it is still in the future and tomorrow's otherwise,
and is always positive and at most one day. -/
theorem c9_seconds_until_next_run (cron : String) (hour minute now_sec : Nat)
    (hparse : parse_daily_cron_time cron = .ok (hour, minute))
    (hnow : now_sec < 86400) :
    (now_sec < hour * 3600 + minute * 60 →
      seconds_until_next_run cron now_sec = .ok (hour * 3600 + minute * 60 - now_sec)) ∧
    (hour * 3600 + minute * 60 ≤ now_sec →
      seconds_until_next_run cron now_sec =
        .ok (hour * 3600 + minute * 60 + 86400 - now_sec)) ∧
    (∀ d, seconds_until_next_run cron now_sec = .ok d → 0 < d ∧ d ≤ 86400) := by
  obtain ⟨hh, hm⟩ := parse_daily_cron_time_bounds hparse
  unfold seconds_until_next_run
  rw [hparse]
  refine ⟨fun h => by simp [h], fun h => by simp [Nat.not_lt.mpr h], ?_⟩
  intro d hd
  by_cases h : now_sec < hour * 3600 + minute * 60
  · simp only [h, if_pos] at hd
    cases hd
    omega
  · simp only [h, if_neg, if_false] at hd
    cases hd
    omega

/-- C9 witness: `"30 23 * * *"` at 10:00 gives 13h30m, at 23:35 gives
23h55m (next day). -/
theorem c9_seconds_until_next_run_witness :
    parse_daily_cron_time "30 23 * * *" = .ok (23, 30) ∧
    seconds_until_next_run "30 23 * * *" 36000 = .ok 48600 ∧
    seconds_until_next_run "30 23 * * *" 84900 = .ok 86100 :=
  ⟨by decide,
   (c9_seconds_until_next_run "30 23 * * *" 23 30 36000 (by decide) (by decide)).1
     (by decide),
   (c9_seconds_until_next_run "30 23 * * *" 23 30 84900 (by decide) (by decide)).2.1
     (by decide)⟩

/-! ## Claim C3 — `categorize_domain` and map iteration order -/

/-- C3 counterexample: two orderings of the same two-rule map (distinct
keys, i.e. the same `HashMap`) categorize `"docs.github.com"`
differently, because `categorize_domain` takes the first matching rule
in iteration order and both `"github.com"` and `"com"` match. -/
theorem c3_order_dependence_counterexample :
    List.Perm [("github.com", "development"), ("com", "entertainment")]
      [("com", "entertainment"), ("github.com", "development")] ∧
    (List.map Prod.fst [("github.com", "development"), ("com", "entertainment")]).Nodup ∧
    categorize_domain [("github.com", "development"), ("com", "entertainment")]
      "docs.github.com" = "development" ∧
    categorize_domain [("com", "entertainment"), ("github.com", "development")]
      "docs.github.com" = "entertainment" :=
  ⟨List.Perm.swap _ _ _, by decide, by decide, by decide⟩

/-- C3 (amended): the category is independent of map iteration order
whenever all rules matching the queried domain carry the same normalized
category (in particular whenever at most one rule matches); with
matching rules of distinct categories the first match in iteration order
wins, so the result is order-dependent. -/
theorem c3_deterministic_when_rules_agree (l1 l2 : List (String × String))
    (domain : String) (hperm : List.Perm l1 l2)
    (hagree : ∀ p ∈ l1, ∀ q ∈ l1,
      domain_matches (toLowerStr (trimStr domain)) p.1 = true →
      domain_matches (toLowerStr (trimStr domain)) q.1 = true →
      normalize_category p.2 = normalize_category q.2) :
    categorize_domain l1 domain = categorize_domain l2 domain := by
  cases h1 : l1.find? (fun p => domain_matches (toLowerStr (trimStr domain)) p.1) with
  | none =>
    cases h2 : l2.find? (fun p => domain_matches (toLowerStr (trimStr domain)) p.1) with
    | none =>
      simp only [categorize_domain]
      rw [h1, h2]
    | some q =>
      have hq := List.find?_some h2
      have hmem : q ∈ l1 := hperm.mem_iff.mpr (List.mem_of_find?_eq_some h2)
      exact absurd hq (List.find?_eq_none.mp h1 q hmem)
  | some p =>
    cases h2 : l2.find? (fun p => domain_matches (toLowerStr (trimStr domain)) p.1) with
    | none =>
      have hp := List.find?_some h1
      have hmem : p ∈ l2 := hperm.mem_iff.mp (List.mem_of_find?_eq_some h1)
      exact absurd hp (List.find?_eq_none.mp h2 p hmem)
    | some q =>
      have hp := List.find?_some h1
      have hq := List.find?_some h2
      have heq := hagree p (List.mem_of_find?_eq_some h1)
        q (hperm.mem_iff.mpr (List.mem_of_find?_eq_some h2)) hp hq
      simp only [categorize_domain]
      rw [h1, h2]
      exact heq

/-- C3 witness: with a single matching rule the category is the same in
both iteration orders. -/
theorem c3_deterministic_when_rules_agree_witness :
    List.Perm [("github.com", "development"), ("gitlab.com", "dev")]
      [("gitlab.com", "dev"), ("github.com", "development")] ∧
    (∀ p ∈ [("github.com", "development"), ("gitlab.com", "dev")],
      ∀ q ∈ [("github.com", "development"), ("gitlab.com", "dev")],
      domain_matches (toLowerStr (trimStr "docs.github.com")) p.1 = true →
      domain_matches (toLowerStr (trimStr "docs.github.com")) q.1 = true →
      normalize_category p.2 = normalize_category q.2) ∧
    categorize_domain [("github.com", "development"), ("gitlab.com", "dev")]
        "docs.github.com" =
      categorize_domain [("gitlab.com", "dev"), ("github.com", "development")]
        "docs.github.com" :=
  ⟨List.Perm.swap _ _ _, by decide,
   c3_deterministic_when_rules_agree _ _ "docs.github.com"
     (List.Perm.swap _ _ _) (by decide)⟩

/-! ## Claim C10 — top-N ranking -/

/-- C10: `top_n_metrics` returns at most `n` metrics, sorted descending
by seconds with ties broken by ascending name, each built from a source
entry with its seconds clamped at zero; the report uses `n = 5` for apps
and `n = 10` for domains; and the 120-second tie between `"a.com"` and
`"b.com"` orders `"a.com"` first from either input order. -/
theorem c10_top_n_metrics (source : List (String × Int)) (n : Nat)
    (date generated_at : String) (activities : List ActivityRow)
    (domains : List StoredVisitRow) :
    (top_n_metrics source n).length ≤ n ∧
    List.Sorted metricBefore (top_n_metrics source n) ∧
    (∀ m ∈ top_n_metrics source n, ∃ p ∈ source,
      m.name = p.1 ∧ m.seconds = (max p.2 0).toNat ∧ m.minutes = sec_to_min p.2) ∧
    (build_daily_report date generated_at activities domains).top_apps =
      top_n_metrics (app_seconds activities) 5 ∧
    (build_daily_report date generated_at activities domains).top_domains =
      top_n_metrics (domain_seconds domains) 10 ∧
    top_n_metrics [("a.com", 120), ("b.com", 120)] 10 =
      [⟨"a.com", 120, 2⟩, ⟨"b.com", 120, 2⟩] ∧
    top_n_metrics [("b.com", 120), ("a.com", 120)] 10 =
      [⟨"a.com", 120, 2⟩, ⟨"b.com", 120, 2⟩] := by
  refine ⟨?_, ?_, ?_, rfl, rfl, by decide, by decide⟩
  · unfold top_n_metrics
    exact List.length_take_le n _
  · exact List.Pairwise.sublist (List.take_sublist n _)
      (List.sorted_insertionSort metricBefore (source.map toMetric))
  · intro m hm
    have hmem : m ∈ List.insertionSort metricBefore (source.map toMetric) :=
      List.mem_of_mem_take hm
    have hsrc : m ∈ source.map toMetric :=
      (List.perm_insertionSort metricBefore (source.map toMetric)).mem_iff.mp hmem
    obtain ⟨p, hp, rfl⟩ := List.mem_map.mp hsrc
    exact ⟨p, hp, rfl, rfl, rfl⟩

/-- C10 witness: the single metric of a one-entry source, with a
negative duration clamped to zero. -/
theorem c10_top_n_metrics_witness :
    (⟨"a.com", 0, 0⟩ : ReportMetric) ∈ top_n_metrics [("a.com", -7)] 5 ∧
    (∃ p ∈ [(("a.com" : String), (-7 : Int))],
      ("a.com" : String) = p.1 ∧ (0 : Nat) = (max p.2 0).toNat ∧
      (0 : Nat) = sec_to_min p.2) :=
  ⟨by decide,
   (c10_top_n_metrics [("a.com", -7)] 5 "d" "g" [] []).2.2.1
     ⟨"a.com", 0, 0⟩ (by decide)⟩

/-! ## Claim C6 — category maps always carry the seven canonical keys -/

theorem lookup_map_self (l : List String) (f : String → Nat) (c : String)
    (hc : c ∈ l) : (l.map (fun k => (k, f k))).lookup c = some (f c) := by
  induction l with
  | nil => cases hc
  | cons k t ih =>
    rcases List.mem_cons.mp hc with hck | hct
    · subst hck
      simp [List.lookup]
    · by_cases hek : c = k
      · subst hek
        simp [List.lookup]
      · simp only [List.map_cons, List.lookup]
        rw [show (c == k) = false from beq_eq_false_iff_ne.mpr hek]
        exact ih hct

theorem c6_canonical_category_maps (date generated_at : String)
    (activities : List ActivityRow) (domains : List StoredVisitRow) :
    ((build_daily_report date generated_at activities domains).categories_seconds.map
        Prod.fst = canonical_categories) ∧
    ((build_daily_report date generated_at activities domains).categories.map
        Prod.fst = canonical_categories) ∧
    ((build_daily_report date generated_at activities domains).chrome_categories_seconds.map
        Prod.fst = canonical_categories) ∧
    ((build_daily_report date generated_at activities domains).chrome_categories.map
        Prod.fst = canonical_categories) ∧
    (∀ c ∈ canonical_categories,
      activities.filter (fun a => a.category == c) = [] →
      (build_daily_report date generated_at activities domains).categories_seconds.lookup c =
          some 0 ∧
        (build_daily_report date generated_at activities domains).categories.lookup c =
          some 0) ∧
    (∀ c ∈ canonical_categories,
      domains.filter (fun v => v.category == c) = [] →
      (build_daily_report date generated_at activities
            domains).chrome_categories_seconds.lookup c = some 0 ∧
        (build_daily_report date generated_at activities domains).chrome_categories.lookup c =
          some 0) := by
  have hact : ∀ c, activities.filter (fun a => a.category == c) = [] →
      sum_pos_by (fun a => a.category) (fun a => a.duration_sec) activities c = 0 := by
    intro c hc
    unfold sum_pos_by
    rw [hc]
    rfl
  have hdom : ∀ c, domains.filter (fun v => v.category == c) = [] →
      sum_pos_by (fun v => v.category) (fun v => v.duration_sec) domains c = 0 := by
    intro c hc
    unfold sum_pos_by
    rw [hc]
    rfl
  refine ⟨?_, ?_, ?_, ?_, ?_, ?_⟩
  · simp [build_daily_report, Function.comp_def]
  · simp [build_daily_report, Function.comp_def]
  · simp [build_daily_report, Function.comp_def]
  · simp [build_daily_report, Function.comp_def]
  · intro c hc hfilter
    constructor
    · rw [show (build_daily_report date generated_at activities
            domains).categories_seconds =
          canonical_categories.map (fun k =>
            (k, (max (sum_pos_by (fun a => a.category) (fun a => a.duration_sec)
              activities k) 0).toNat)) from rfl,
        lookup_map_self _ _ c hc, hact c hfilter]
      decide
    · rw [show (build_daily_report date generated_at activities domains).categories =
          canonical_categories.map (fun k =>
            (k, sec_to_min (sum_pos_by (fun a => a.category) (fun a => a.duration_sec)
              activities k))) from rfl,
        lookup_map_self _ _ c hc, hact c hfilter]
      decide
  · intro c hc hfilter
    constructor
    · rw [show (build_daily_report date generated_at activities
            domains).chrome_categories_seconds =
          canonical_categories.map (fun k =>
            (k, (max (sum_pos_by (fun v => v.category) (fun v => v.duration_sec)
              domains k) 0).toNat)) from rfl,
        lookup_map_self _ _ c hc, hdom c hfilter]
      decide
    · rw [show (build_daily_report date generated_at activities domains).chrome_categories =
          canonical_categories.map (fun k =>
            (k, sec_to_min (sum_pos_by (fun v => v.category) (fun v => v.duration_sec)
              domains k))) from rfl,
        lookup_map_self _ _ c hc, hdom c hfilter]
      decide

/-- C6 witness: with one development activity row and no browsing rows,
the `"sns"` entries of the activity maps and the `"development"` entries
of the browsing maps are present with value 0. -/
theorem c6_canonical_category_maps_witness :
    ("sns" ∈ canonical_categories) ∧
    ((([⟨0, "code", none, "development", 100⟩] : List ActivityRow).filter
        (fun a => a.category == "sns")) = []) ∧
    (build_daily_report "2026-02-18" "t"
        [⟨0, "code", none, "development", 100⟩] []).categories_seconds.lookup "sns" =
      some 0 ∧
    (build_daily_report "2026-02-18" "t"
        [⟨0, "code", none, "development", 100⟩] []).chrome_categories_seconds.lookup
        "development" = some 0 :=
  ⟨by decide, by decide,
   ((c6_canonical_category_maps "2026-02-18" "t"
      [⟨0, "code", none, "development", 100⟩] []).2.2.2.2.1
      "sns" (by decide) (by decide)).1,
   ((c6_canonical_category_maps "2026-02-18" "t"
      [⟨0, "code", none, "development", 100⟩] []).2.2.2.2.2
      "development" (by decide) (by decide)).1⟩

/-! ## Claim C1 — enrichment failure never aborts the pipeline -/

/-- The failure modes of the enrichment step named by the claim: network
error, non-success HTTP status, response body that does not decode,
missing-or-empty message content, or a message content whose extracted
JSON payload does not decode. -/
def enrichment_failure (decodeChat : String → Option ChatCompletionResponse)
    (decodePayload : String → Option AiClassificationPayload)
    (http : HttpOutcome) : Prop :=
  (∃ msg, http = .netError msg) ∨
  (∃ body, http = .response false body) ∨
  (∃ body, http = .response true body ∧ decodeChat body = none) ∨
  (∃ body parsed, http = .response true body ∧ decodeChat body = some parsed ∧
    ∀ content, parsed.choices.head?.bind (fun c => c.message.content) = some content →
      isEmptyStr (trimStr content) = true) ∨
  (∃ body parsed content, http = .response true body ∧ decodeChat body = some parsed ∧
    parsed.choices.head?.bind (fun c => c.message.content) = some content ∧
    isEmptyStr (trimStr content) = false ∧
    decodePayload (extract_json_block (trimStr content)) = none)

theorem mem_dedupKeysAux : ∀ (l acc : List String) (x : String),
    x ∈ dedupKeysAux l acc → x ∈ l ∨ x ∈ acc := by
  intro l
  induction l with
  | nil =>
    intro acc x hx
    right
    simpa [dedupKeysAux, List.mem_reverse] using hx
  | cons k t ih =>
    intro acc x hx
    simp only [dedupKeysAux] at hx
    by_cases hk : acc.contains k
    · rw [if_pos hk] at hx
      rcases ih acc x hx with hmem | hmem
      · exact Or.inl (List.mem_cons_of_mem _ hmem)
      · exact Or.inr hmem
    · rw [if_neg hk] at hx
      rcases ih (k :: acc) x hx with hmem | hmem
      · exact Or.inl (List.mem_cons_of_mem _ hmem)
      · rcases List.mem_cons.mp hmem with hmem | hmem
        · exact Or.inl (hmem ▸ List.mem_cons_self _ _)
        · exact Or.inr hmem

theorem mem_dedupKeys {x : String} {l : List String} (h : x ∈ dedupKeys l) : x ∈ l := by
  rcases mem_dedupKeysAux l [] x h with hmem | hmem
  · exact hmem
  · cases hmem

theorem no_ai_prefix_entertainment (t : String) :
    startsWithStr ("Entertainment usage is high: " ++ t) "AI insight: " = false := by
  have hAE : ('A' == 'E') = false := by decide
  unfold startsWithStr
  rw [show ("Entertainment usage is high: " ++ t).data =
      'E' :: ("ntertainment usage is high: ".data ++ t.data) from rfl]
  rw [show "AI insight: ".data = 'A' :: "I insight: ".data from rfl]
  simp [List.isPrefixOf, hAE]

theorem no_ai_prefix_youtube (t : String) :
    startsWithStr ("YouTube session was unusually long: " ++ t) "AI insight: " = false := by
  have hAY : ('A' == 'Y') = false := by decide
  unfold startsWithStr
  rw [show ("YouTube session was unusually long: " ++ t).data =
      'Y' :: ("ouTube session was unusually long: ".data ++ t.data) from rfl]
  rw [show "AI insight: ".data = 'A' :: "I insight: ".data from rfl]
  simp [List.isPrefixOf, hAY]

theorem detect_anomalies_no_ai (cs : List (String × Nat)) (td : List ReportMetric)
    (a c : Nat) :
    ∀ s ∈ detect_anomalies cs td a c, startsWithStr s "AI insight: " = false := by
  intro s hs
  simp only [detect_anomalies, List.mem_filterMap, List.mem_cons, List.not_mem_nil,
    or_false, id] at hs
  obtain ⟨o, ho, hos⟩ := hs
  rcases ho with rfl | rfl | rfl | rfl
  · by_cases hent : 90 * 60 ≤ (cs.lookup "entertainment").getD 0
    · rw [if_pos hent] at hos
      cases hos
      exact no_ai_prefix_entertainment _
    · rw [if_neg hent] at hos
      cases hos
  · rcases Option.map_eq_some'.mp hos with ⟨m, _, rfl⟩
    exact no_ai_prefix_youtube _
  · by_cases hlow : a < 60 * 60
    · rw [if_pos hlow] at hos
      cases hos
      decide
    · rw [if_neg hlow] at hos
      cases hos
  · by_cases hover : a < c ∧ 0 < c
    · rw [if_pos hover] at hos
      cases hos
      decide
    · rw [if_neg hover] at hos
      cases hos

/-- C1: whenever the remote enrichment fails — network error, non-success
status, undecodable response, missing/empty message content, or an
unparsable JSON payload — the pipeline continues: the date's stored rows
are replaced by exactly the rule-based input visits, the insight list is
empty, and no anomaly line of the generated report is an AI insight. -/
theorem c1_enrichment_failure_never_aborts (date generated_at : String)
    (activities : List ActivityRow) (ai_enabled : Bool)
    (envKey configKey : Option String)
    (decodeChat : String → Option ChatCompletionResponse)
    (decodePayload : String → Option AiClassificationPayload)
    (http : HttpOutcome) (visits : List ChromeVisitInput)
    (store : List StoredVisitRow)
    (h : enrichment_failure decodeChat decodePayload http) :
    run_daily_pipeline_store date visits
        (enrich_chrome_visits ai_enabled envKey configKey decodeChat decodePayload
          http visits) store =
      (replace_chrome_visits_for_date date visits store, []) ∧
    ∀ s ∈ (generate_report date generated_at activities
        (chrome_visits_for_date date (replace_chrome_visits_for_date date visits store))
        (run_daily_pipeline_store date visits
          (enrich_chrome_visits ai_enabled envKey configKey decodeChat decodePayload
            http visits) store).2).anomalies,
      startsWithStr s "AI insight: " = false := by
  have hp : pipeline_enrichment visits
      (enrich_chrome_visits ai_enabled envKey configKey decodeChat decodePayload
        http visits) = ⟨visits, []⟩ := by
    cases hgate : (!ai_enabled || visits.isEmpty) with
    | true => simp [enrich_chrome_visits, hgate, pipeline_enrichment]
    | false =>
      cases hkey : resolve_api_key envKey configKey with
      | none => simp [enrich_chrome_visits, hgate, hkey, pipeline_enrichment]
      | some key =>
        by_cases hkw : isEmptyStr (trimStr key) = true
        · simp [enrich_chrome_visits, hgate, hkey, chat_completion_blocking, hkw,
            pipeline_enrichment]
        · have hkw' : isEmptyStr (trimStr key) = false := Bool.eq_false_iff.mpr hkw
          rcases h with ⟨m, rfl⟩ | ⟨body, rfl⟩ | ⟨body, hbody, hdc⟩ |
            ⟨body, parsed, hbody, hdc, hempty⟩ |
            ⟨body, parsed, content, hbody, hdc, hcontent, hne, hdp⟩
          · simp [enrich_chrome_visits, hgate, hkey, chat_completion_blocking, hkw',
              pipeline_enrichment]
          · simp [enrich_chrome_visits, hgate, hkey, chat_completion_blocking, hkw',
              pipeline_enrichment]
          · subst hbody
            simp [enrich_chrome_visits, hgate, hkey, chat_completion_blocking, hkw',
              hdc, pipeline_enrichment]
          · subst hbody
            have hchat : chat_completion_blocking key decodeChat (.response true body) =
                .error "AI response did not include message.content" := by
              cases hcb : parsed.choices.head?.bind (fun choice => choice.message.content) with
              | none => simp [chat_completion_blocking, hkw', hdc, hcb]
              | some c =>
                have hce := hempty c hcb
                simp [chat_completion_blocking, hkw', hdc, hcb, hce]
            simp [enrich_chrome_visits, hgate, hkey, hchat, pipeline_enrichment]
          · subst hbody
            have hchat : chat_completion_blocking key decodeChat (.response true body) =
                .ok (trimStr content) := by
              simp [chat_completion_blocking, hkw', hdc, hcontent, hne]
            have hparse : parse_ai_payload decodePayload (trimStr content) =
                .error ("Failed to parse AI JSON payload. content: " ++ trimStr content) := by
              simp [parse_ai_payload, hdp]
            simp [enrich_chrome_visits, hgate, hkey, hchat, hparse, pipeline_enrichment]
  have hrun : run_daily_pipeline_store date visits
      (enrich_chrome_visits ai_enabled envKey configKey decodeChat decodePayload
        http visits) store =
      (replace_chrome_visits_for_date date visits store, []) := by
    unfold run_daily_pipeline_store
    rw [hp]
  refine ⟨hrun, ?_⟩
  intro s hs
  rw [show (run_daily_pipeline_store date visits
      (enrich_chrome_visits ai_enabled envKey configKey decodeChat decodePayload
        http visits) store).2 = [] from congrArg Prod.snd hrun] at hs
  have hmem : s ∈ (build_daily_report date generated_at activities
      (chrome_visits_for_date date
        (replace_chrome_visits_for_date date visits store))).anomalies := by
    have hdk : s ∈ dedupKeys ((build_daily_report date generated_at activities
        (chrome_visits_for_date date
          (replace_chrome_visits_for_date date visits store))).anomalies ++
        List.map (fun e => "AI insight: " ++ e) []) := hs
    simpa using mem_dedupKeys hdk
  exact detect_anomalies_no_ai _ _ _ _ s hmem

/-- C1 witness: a concrete network error falls back to the original
visit list with zero insights. -/
theorem c1_enrichment_failure_never_aborts_witness :
    enrichment_failure (fun _ => none) (fun _ => none)
      (HttpOutcome.netError "connection refused") ∧
    run_daily_pipeline_store "2026-02-18"
        [⟨"github.com", "development", 120⟩]
        (enrich_chrome_visits true (some "key") none (fun _ => none) (fun _ => none)
          (HttpOutcome.netError "connection refused")
          [⟨"github.com", "development", 120⟩]) [] =
      (replace_chrome_visits_for_date "2026-02-18"
        [⟨"github.com", "development", 120⟩] [], []) :=
  ⟨Or.inl ⟨"connection refused", rfl⟩,
   (c1_enrichment_failure_never_aborts "2026-02-18" "g" [] true (some "key") none
      (fun _ => none) (fun _ => none) (HttpOutcome.netError "connection refused")
      [⟨"github.com", "development", 120⟩] []
      (Or.inl ⟨"connection refused", rfl⟩)).1⟩

end OpenTracker
